import Mathlib

set_option linter.unreachableTactic false
set_option linter.unusedTactic false

/-!
Verification of the graph-answer decoding and relation-category dispatch engine
of `stix/module/orm/export_utilities.py`.

The Python module walks the answers of a TypeDB query.  Each bound concept is an
entity, a relation or an attribute; relations are classified by their declared
type name against an authorization table and unpacked per structural category
(embedded, standard, key-value, extension, list-of-objects, granular-marking,
hashes).  We give a shallow embedding: graph concepts become an inductive tree
`Thing` (the read-only view the traversal actually consumes), the authorization
table a record of membership name lists and per-category detail rows, the
produced Python dicts become `Rec`/`PropRec`/`TopRec` values with `Option`
fields for keys that may be absent, and Python exceptions (the unbound-local
`NameError` / `KeyError` paths) become `Except String` results.
-/

namespace StixDecode

/-! ## Datetimes

Python `datetime` values are modelled by the wall-clock reading in microseconds
together with the timezone offset of the attached `tzinfo`.  `astimezone(utc)`
re-expresses the same instant with offset zero; `strftime` formats the
wall-clock fields.  The civil-calendar conversion follows the standard
days-from-civil inverse used by CPython's proleptic Gregorian calendar.
-/

structure PyDatetime where
  local_micros : Int
  offset_minutes : Int
deriving DecidableEq, Repr

/-- The absolute instant (microseconds since epoch) denoted by an aware datetime. -/
def PyDatetime.instant (d : PyDatetime) : Int :=
  d.local_micros - d.offset_minutes * 60000000

/-- `datetime.astimezone(timezone.utc)`: same instant, offset zero. -/
def astimezone_utc (d : PyDatetime) : PyDatetime :=
  ⟨d.local_micros - d.offset_minutes * 60000000, 0⟩

/-- Proleptic Gregorian civil date (year, month, day) from days since epoch. -/
def civil_from_days (z0 : Int) : Int × Int × Int :=
  let z := z0 + 719468
  let era := z.ediv 146097
  let doe := z - era * 146097
  let yoe := (doe - doe.ediv 1460 + doe.ediv 36524 - doe.ediv 146096).ediv 365
  let y := yoe + era * 400
  let doy := doe - (365 * yoe + yoe.ediv 4 - yoe.ediv 100)
  let mp := (5 * doy + 2).ediv 153
  let da := doy - (153 * mp + 2).ediv 5 + 1
  let mo := mp + (if mp < 10 then 3 else -9)
  (y + (if mo ≤ 2 then 1 else 0), mo, da)

def digit_char (n : Nat) : Char := Char.ofNat (48 + n % 10)

def pad2 (n : Nat) : List Char := [digit_char (n / 10), digit_char n]

def pad4 (n : Nat) : List Char :=
  [digit_char (n / 1000), digit_char (n / 100), digit_char (n / 10), digit_char n]

def pad6 (n : Nat) : List Char :=
  [digit_char (n / 100000), digit_char (n / 10000), digit_char (n / 1000),
   digit_char (n / 100), digit_char (n / 10), digit_char n]

/-- `strftime("%Y-%m-%dT%H:%M:%S.%fZ")` over the wall-clock fields:
`%f` is the microsecond component zero-padded to exactly six digits, and the
`Z` is a literal character. -/
def fmt_datetime (d : PyDatetime) : List Char :=
  let m := d.local_micros
  let days := m.ediv 86400000000
  let rem := (m.emod 86400000000).toNat
  let c := civil_from_days days
  let micro := rem % 1000000
  let secs := rem / 1000000
  pad4 c.1.toNat ++ ('-' :: pad2 c.2.1.toNat) ++ ('-' :: pad2 c.2.2.toNat) ++
    ('T' :: pad2 (secs / 3600)) ++ (':' :: pad2 ((secs % 3600) / 60)) ++
    (':' :: pad2 (secs % 60)) ++ ('.' :: pad6 micro) ++ ['Z']

/-! ## Attribute values and the string unescaping of `process_props`

`temp_string.replace("\\\\", "\\")` scans left to right and replaces every
non-overlapping occurrence of two consecutive backslash characters by a single
backslash; strings are modelled as `List Char`. -/

inductive AVal where
  | dt (d : PyDatetime)
  | str (s : List Char)
  | num (n : Int)
  | boolean (b : Bool)
deriving DecidableEq, Repr

/-- Python `s.replace("\\\\", "\\")` (source-text escapes: a two-backslash
pattern replaced by one backslash), as a left-to-right non-overlapping scan. -/
def replace_pair : List Char → List Char
  | [] => []
  | [c] => [c]
  | c :: d :: rest =>
    if c = '\\' ∧ d = '\\' then '\\' :: replace_pair rest
    else c :: replace_pair (d :: rest)

/-- The string contains two consecutive backslashes. -/
def has_pair : List Char → Bool
  | [] => false
  | [_] => false
  | c :: d :: rest => if c = '\\' ∧ d = '\\' then true else has_pair (d :: rest)

/-- The string contains three consecutive backslashes. -/
def has_triple : List Char → Bool
  | c :: d :: e :: rest =>
    if c = '\\' ∧ d = '\\' ∧ e = '\\' then true else has_triple (d :: e :: rest)
  | _ => false

/-! ## The graph view

`Thing` is the tree of graph data a single traversal observes through the
transaction: `get_type().get_label().name()`, `get_iid()`, `get_has()` (all
has-edges, or filtered by an attribute type), `get_relations()` and
`get_players_by_role_type()`.  Attribute concepts carry a value and their own
has-edges. -/

inductive Thing where
  | entity (tname : String) (tid : String) (has : List Thing) (rels : List Thing)
  | relation (tname : String) (tid : String) (has : List Thing) (rels : List Thing)
      (role_map : List (String × List Thing))
  | attribute (tname : String) (val : AVal) (has : List Thing)
  | other (tag : String)

def Thing.is_entity : Thing → Bool
  | .entity _ _ _ _ => true
  | _ => false

def Thing.is_relation : Thing → Bool
  | .relation _ _ _ _ _ => true
  | _ => false

def Thing.is_attribute : Thing → Bool
  | .attribute _ _ _ => true
  | _ => false

def Thing.type_name : Thing → String
  | .entity n _ _ _ => n
  | .relation n _ _ _ _ => n
  | .attribute n _ _ => n
  | .other t => t

def Thing.iid : Thing → String
  | .entity _ i _ _ => i
  | .relation _ i _ _ _ => i
  | _ => ""

def Thing.get_value : Thing → AVal
  | .attribute _ v _ => v
  | _ => .num 0

def Thing.get_has : Thing → List Thing
  | .entity _ _ h _ => h
  | .relation _ _ h _ _ => h
  | .attribute _ _ h => h
  | .other _ => []

def Thing.get_relations : Thing → List Thing
  | .entity _ _ _ r => r
  | .relation _ _ _ r _ => r
  | _ => []

def Thing.get_players_by_role : Thing → List (String × List Thing)
  | .relation _ _ _ _ rm => rm
  | _ => []

/-- `get_has(attribute_type=tx.concepts().get_attribute_type(n))`: the
has-edges whose attribute type has the given name. -/
def Thing.get_has_type (t : Thing) (n : String) : List Thing :=
  t.get_has.filter (fun a => a.type_name == n)

/-- The `for attr in ...: play[k] = attr.get_value()` pattern: the last value
observed wins, absent when there is none. -/
def last_attr_value (p : Thing) (n : String) : Option AVal :=
  ((p.get_has_type n).map Thing.get_value).getLast?

/-! ## Produced records

The Python traversal returns nested dicts.  `PropRec` is one entry of a `has`
list; `Rec` is either a role player dict (`play`) or an unpacked relation dict
(`reln`); `TopRec` is one element of the top-level result list.  `Option`
fields model dict keys that are only sometimes set. -/

structure PropRec where
  typeql : String
  value : AVal
  datetime : Bool
deriving DecidableEq, Repr

inductive Rec where
  | play (ptype : String) (tql : String) (stix_id : Option AVal) (hash_value : Option AVal)
      (value : Option AVal) (props : Option (List PropRec)) (has : Option (List PropRec))
      (relns : Option (List Rec)) : Rec
  | reln (T_name : String) (T_id : String) (roles : Option (List (String × List Rec))) : Rec

def Rec.is_reln : Rec → Bool
  | .reln _ _ _ => true
  | _ => false

def Rec.type_of : Rec → String
  | .play t _ _ _ _ _ _ _ => t
  | .reln _ _ _ => "relation"

def Rec.tql_of : Rec → String
  | .play _ t _ _ _ _ _ _ => t
  | .reln n _ _ => n

def Rec.stix_id_of : Rec → Option AVal
  | .play _ _ s _ _ _ _ _ => s
  | _ => none

def Rec.hash_value_of : Rec → Option AVal
  | .play _ _ _ h _ _ _ _ => h
  | _ => none

def Rec.value_of : Rec → Option AVal
  | .play _ _ _ _ v _ _ _ => v
  | _ => none

def Rec.props_of : Rec → Option (List PropRec)
  | .play _ _ _ _ _ p _ _ => p
  | _ => none

def Rec.has_of : Rec → Option (List PropRec)
  | .play _ _ _ _ _ _ h _ => h
  | _ => none

def Rec.relns_of : Rec → Option (List Rec)
  | .play _ _ _ _ _ _ _ r => r
  | _ => none

def Rec.roles_of : Rec → Option (List (String × List Rec))
  | .reln _ _ ro => ro
  | _ => none

structure TopRec where
  rtype : String
  symbol : String
  T_id : String
  T_name : String
  has : List PropRec
  relns : List Rec
  edges : Option (List (String × List Rec))

/-! ## The leaf decoders -/

/-- `process_props`: decode a list of attribute concepts.  Datetime values are
normalized to UTC and formatted with `strftime("%Y-%m-%dT%H:%M:%S.%fZ")`;
string values have `"\\\\"` collapsed to `"\\"`; anything else passes through. -/
def process_props (props : List Thing) : List PropRec :=
  props.map (fun a =>
    match a with
    | .attribute t (.dt d) _ => ⟨t, .str (fmt_datetime (astimezone_utc d)), true⟩
    | .attribute t (.str s) _ => ⟨t, .str (replace_pair s), false⟩
    | a => ⟨a.type_name, a.get_value, false⟩)

/-- `process_value`: datetime values are UTC-normalized and formatted, all
other values are returned unchanged. -/
def process_value (p : Thing) : AVal :=
  match p with
  | .attribute _ (.dt d) _ => .str (fmt_datetime (astimezone_utc d))
  | p => p.get_value

/-- `process_entity`: the minimal reference to an entity player — its declared
type name plus the (last) value of its identifier attribute. -/
def process_entity (stix_id : String) (p : Thing) : Rec :=
  .play "entity" p.type_name (last_attr_value p stix_id) none none none none none

/-- `process_relation`: a relation appearing as a role player is reduced to a
flat dict `{"type": "attribute", "tql": ..., "stix_id": ...}` — the same shape
as an entity reference but tagged `"attribute"`, with no recursive unpacking. -/
def process_relation (stix_id : String) (p : Thing) : Rec :=
  .play "attribute" p.type_name (last_attr_value p stix_id) none none none none none

/-- `reln_map_entity_relation`: for every role, entity players are unpacked by
`process_entity` and relation players by `process_relation`; other players are
logged and skipped. -/
def reln_map_entity_relation (stix_id : String) (rm : List (String × List Thing)) :
    List (String × List Rec) :=
  rm.map (fun rp =>
    (rp.1, rp.2.filterMap (fun p =>
      if p.is_entity then some (process_entity stix_id p)
      else if p.is_relation then some (process_relation stix_id p)
      else none)))

/-- `reln_map_entity_attribute`: entity players become references, attribute
players carry their value, and (key-value category only) their own has-edges
as `props`. -/
def reln_map_entity_attribute (stix_id : String) (is_kv : Bool)
    (rm : List (String × List Thing)) : List (String × List Rec) :=
  rm.map (fun rp =>
    (rp.1, rp.2.filterMap (fun p =>
      if p.is_entity then some (process_entity stix_id p)
      else if p.is_attribute then
        some (.play "attribute" p.type_name none none (some (process_value p))
          (if is_kv then some (process_props p.get_has) else none) none none)
      else none)))

def get_granular_marking (r : Thing) : List (String × List Rec) :=
  reln_map_entity_attribute "stix-id" false r.get_players_by_role

def get_key_value_relations (r : Thing) : List (String × List Rec) :=
  reln_map_entity_attribute "stix-id" true r.get_players_by_role

def get_embedded_relations (r : Thing) : List (String × List Rec) :=
  reln_map_entity_relation "stix-id" r.get_players_by_role

/-- `get_standard_relations`: standard relationships yield no substructure. -/
def get_standard_relations (_r : Thing) : List (String × List Rec) :=
  []

/-- `get_hashes`: entity players of the `owner` role carry the identifier
attribute's value as `stix_id`; entity players of every other role carry the
`hash-value` attribute's value as `hash_value`. -/
def get_hashes (r : Thing) : List (String × List Rec) :=
  r.get_players_by_role.map (fun rp =>
    (rp.1, rp.2.filterMap (fun p =>
      if p.is_entity then
        some (.play "entity" p.type_name
          (if rp.1 == "owner" then last_attr_value p "stix-id" else none)
          (if rp.1 == "owner" then none else last_attr_value p "hash-value")
          none none none none)
      else none)))

/-! ## The authorization table -/

structure EmbEntry where
  typeql : String
  owner : String
deriving DecidableEq, Repr

structure KvEntry where
  typeql : String
  owner : String
deriving DecidableEq, Repr

structure ExtEntry where
  relation : String
  owner : String
  object : String
deriving DecidableEq, Repr

structure LotEntry where
  typeql : String
  owner : String
  object : String
  pointed_to : String
  name : String
deriving DecidableEq, Repr

structure Auth where
  embedded_names : List String
  standard_names : List String
  key_value_names : List String
  extension_names : List String
  list_of_objects_names : List String
  embedded : List EmbEntry
  key_value : List KvEntry
  extension : List ExtEntry
  list_of_objects : List LotEntry
  sub_objects : List String
deriving DecidableEq, Repr

/-- The Python pattern `for x in l: if p(x): v = f(x)` binds `v` to the last
match; `v` stays unbound when no element matches. -/
def last_match {α : Type} (l : List α) (p : α → Bool) : Option α :=
  l.foldl (fun acc x => if p x then some x else acc) none

/-- `get_list_of_objects`: the auth loop first dereferences
`auth["sub_objects"][lot["object"]]` for every matching row (a `KeyError`
escapes if an object key is missing); then every entity player of every role is
fully expanded — its has-edges and all of its relations, each nested relation
unpacked by `reln_map_entity_relation` with no validation. -/
def get_list_of_objects (auth : Auth) (r : Thing) : Except String (List (String × List Rec)) :=
  if (auth.list_of_objects.filter (fun lot => r.type_name == lot.typeql)).all
      (fun lot => auth.sub_objects.contains lot.object) then
    .ok (r.get_players_by_role.map (fun rp =>
      (rp.1, rp.2.filterMap (fun p =>
        if p.is_entity then
          some (.play "entity" p.type_name none none none none
            (some (process_props p.get_has))
            (some (p.get_relations.map (fun rel =>
              Rec.reln rel.type_name rel.iid
                (some (reln_map_entity_relation "stix-id" rel.get_players_by_role))))))
        else none))))
  else
    .error "KeyError"

/-! ## Category dispatch, extension unpacking and relation validation

`get_relation_details` is a first-match dispatch on the relation's declared
type name.  The extension handler recurses through `validate_get_relns` into
the matched sub-object's own relations; the loops of the Python source are
written as explicit list recursions.  An `Except.error` models an uncaught
Python exception (the unbound-local `NameError` when a membership set contains
a name with no detail row, and the `KeyError` of `get_list_of_objects`). -/

mutual

/-- `get_relation_details`: resolve the category of a relation by its declared
type name and unpack it with the matching handler; `standard` also matches the
literal name `sighting`, and the hashes handler also serves
`file_header_hashes`.  An unmatched name is logged and the record is returned
with no `roles` key (`roles = none`). -/
def get_relation_details (auth : Auth) (r : Thing) : Except String Rec :=
  let reln_name := r.type_name
  if auth.embedded_names.contains reln_name then
    .ok (.reln reln_name r.iid (some (get_embedded_relations r)))
  else if auth.standard_names.contains reln_name || reln_name == "sighting" then
    .ok (.reln reln_name r.iid (some (get_standard_relations r)))
  else if auth.key_value_names.contains reln_name then
    .ok (.reln reln_name r.iid (some (get_key_value_relations r)))
  else if auth.extension_names.contains reln_name then
    match get_extension_relations auth r with
    | .error e => .error e
    | .ok roles => .ok (.reln reln_name r.iid (some roles))
  else if auth.list_of_objects_names.contains reln_name then
    match get_list_of_objects auth r with
    | .error e => .error e
    | .ok roles => .ok (.reln reln_name r.iid (some roles))
  else if reln_name == "granular-marking" then
    .ok (.reln reln_name r.iid (some (get_granular_marking r)))
  else if reln_name == "hashes" || reln_name == "file_header_hashes" then
    .ok (.reln reln_name r.iid (some (get_hashes r)))
  else
    .ok (.reln reln_name r.iid none)
termination_by 5 * sizeOf r + 2
decreasing_by
  all_goals try simp only [List.cons.sizeOf_spec, Prod.mk.sizeOf_spec]
  all_goals first
    | omega
    | (have h1 : sizeOf r.get_players_by_role ≤ sizeOf r := by
         cases r <;> simp [Thing.get_players_by_role] <;> omega
       omega)
    | (have h1 : sizeOf p.get_relations ≤ sizeOf p := by
         cases p <;> simp [Thing.get_relations] <;> omega
       omega)

/-- `get_extension_relations`: look up the expected sub-object type name in the
extension detail rows (last match wins; the name stays unbound when no row
matches) and walk the role/player map. -/
def get_extension_relations (auth : Auth) (r : Thing) :
    Except String (List (String × List Rec)) :=
  let obj_opt := (last_match auth.extension (fun e => e.relation == r.type_name)).map
    (fun e => e.object)
  ext_roles_loop auth obj_opt r.get_players_by_role
termination_by 5 * sizeOf r + 1
decreasing_by
  all_goals try simp only [List.cons.sizeOf_spec, Prod.mk.sizeOf_spec]
  all_goals first
    | omega
    | (have h1 : sizeOf r.get_players_by_role ≤ sizeOf r := by
         cases r <;> simp [Thing.get_players_by_role] <;> omega
       omega)
    | (have h1 : sizeOf p.get_relations ≤ sizeOf p := by
         cases p <;> simp [Thing.get_relations] <;> omega
       omega)

/-- The `for role, player in reln_map.items()` loop of `get_extension_relations`. -/
def ext_roles_loop (auth : Auth) (obj_opt : Option String)
    (rm : List (String × List Thing)) : Except String (List (String × List Rec)) :=
  match rm with
  | [] => .ok []
  | (role, players) :: rest =>
    match ext_players_loop auth obj_opt players with
    | .error e => .error e
    | .ok plays =>
      match ext_roles_loop auth obj_opt rest with
      | .error e => .error e
      | .ok roles => .ok ((role, plays) :: roles)
termination_by 5 * sizeOf rm
decreasing_by
  all_goals try simp only [List.cons.sizeOf_spec, Prod.mk.sizeOf_spec]
  all_goals first
    | omega
    | (have h1 : sizeOf r.get_players_by_role ≤ sizeOf r := by
         cases r <;> simp [Thing.get_players_by_role] <;> omega
       omega)
    | (have h1 : sizeOf p.get_relations ≤ sizeOf p := by
         cases p <;> simp [Thing.get_relations] <;> omega
       omega)

/-- The `for p in player` loop of `get_extension_relations`.  Comparing the
player's type name against the configured sub-object name raises the
unbound-local `NameError` when no extension detail row matched; a matching
entity player is fully expanded (has-edges plus validated relations), any other
entity player is reduced to its identifier, and attribute players carry their
value with no props. -/
def ext_players_loop (auth : Auth) (obj_opt : Option String) (ps : List Thing) :
    Except String (List Rec) :=
  match ps with
  | [] => .ok []
  | p :: rest =>
    if p.is_entity then
      match obj_opt with
      | none => .error "NameError: reln_object"
      | some obj =>
        if p.type_name == obj then
          match ext_validate_loop auth obj p.get_relations with
          | .error e => .error e
          | .ok relns =>
            match ext_players_loop auth obj_opt rest with
            | .error e => .error e
            | .ok plays =>
              .ok (.play "entity" p.type_name none none none none
                (some (process_props p.get_has)) (some relns) :: plays)
        else
          match ext_players_loop auth obj_opt rest with
          | .error e => .error e
          | .ok plays =>
            .ok (.play "entity" p.type_name (last_attr_value p "stix-id")
              none none none none none :: plays)
    else if p.is_attribute then
      match ext_players_loop auth obj_opt rest with
      | .error e => .error e
      | .ok plays =>
        .ok (.play "attribute" p.type_name none none (some (process_value p))
          none none none :: plays)
    else
      ext_players_loop auth obj_opt rest
termination_by 5 * sizeOf ps
decreasing_by
  all_goals try simp only [List.cons.sizeOf_spec, Prod.mk.sizeOf_spec]
  all_goals first
    | omega
    | (have h1 : sizeOf r.get_players_by_role ≤ sizeOf r := by
         cases r <;> simp [Thing.get_players_by_role] <;> omega
       omega)
    | (have h1 : sizeOf p.get_relations ≤ sizeOf p := by
         cases p <;> simp [Thing.get_relations] <;> omega
       omega)

/-- The `for rel in reln_types` loop of the matched branch: each nested
relation is screened by `validate_get_relns`, and `None`/empty results are
dropped. -/
def ext_validate_loop (auth : Auth) (obj : String) (rels : List Thing) :
    Except String (List Rec) :=
  match rels with
  | [] => .ok []
  | rel :: rest =>
    match validate_get_relns auth rel obj with
    | .error e => .error e
    | .ok none => ext_validate_loop auth obj rest
    | .ok (some reln) =>
      match ext_validate_loop auth obj rest with
      | .error e => .error e
      | .ok relns => .ok (reln :: relns)
termination_by 5 * sizeOf rels
decreasing_by
  all_goals try simp only [List.cons.sizeOf_spec, Prod.mk.sizeOf_spec]
  all_goals first
    | omega
    | (have h1 : sizeOf r.get_players_by_role ≤ sizeOf r := by
         cases r <;> simp [Thing.get_players_by_role] <;> omega
       omega)
    | (have h1 : sizeOf p.get_relations ≤ sizeOf p := by
         cases p <;> simp [Thing.get_relations] <;> omega
       omega)

/-- `validate_get_relns`: for the four owner-filtered categories, fetch the
configured owner role name from the detail rows (last match wins; unbound-local
`NameError` when no row matches) and defer to `return_valid_relations`;
`granular-marking` and the literal name `hashes` are passed straight to
`get_relation_details`; any other name is logged and yields `None`. -/
def validate_get_relns (auth : Auth) (rel : Thing) (obj_name : String) :
    Except String (Option Rec) :=
  let reln_name := rel.type_name
  if auth.embedded_names.contains reln_name then
    match last_match auth.embedded (fun e => e.typeql == reln_name) with
    | none => .error "NameError: role_owner"
    | some e => return_valid_relations auth rel obj_name e.owner
  else if auth.key_value_names.contains reln_name then
    match last_match auth.key_value (fun e => e.typeql == reln_name) with
    | none => .error "NameError: role_owner"
    | some e => return_valid_relations auth rel obj_name e.owner
  else if auth.extension_names.contains reln_name then
    match last_match auth.extension (fun e => e.relation == reln_name) with
    | none => .error "NameError: role_owner"
    | some e => return_valid_relations auth rel obj_name e.owner
  else if auth.list_of_objects_names.contains reln_name then
    match last_match auth.list_of_objects (fun e => e.typeql == reln_name) with
    | none => .error "NameError: role_owner"
    | some e => return_valid_relations auth rel obj_name e.owner
  else if reln_name == "granular-marking" then
    match get_relation_details auth rel with
    | .error e => .error e
    | .ok reln => .ok (some reln)
  else if reln_name == "hashes" then
    match get_relation_details auth rel with
    | .error e => .error e
    | .ok reln => .ok (some reln)
  else
    .ok none
termination_by 5 * sizeOf rel + 4
decreasing_by
  all_goals try simp only [List.cons.sizeOf_spec, Prod.mk.sizeOf_spec]
  all_goals first
    | omega
    | (have h1 : sizeOf r.get_players_by_role ≤ sizeOf r := by
         cases r <;> simp [Thing.get_players_by_role] <;> omega
       omega)
    | (have h1 : sizeOf p.get_relations ≤ sizeOf p := by
         cases p <;> simp [Thing.get_relations] <;> omega
       omega)

/-- `return_valid_relations`: keep the relation (unpacked in full by
`get_relation_details`) exactly when some player of the configured owner role
is an entity whose declared type name equals the sub-object being expanded;
otherwise fall off the loops and return `None`. -/
def return_valid_relations (auth : Auth) (rel : Thing) (obj_name role_owner : String) :
    Except String (Option Rec) :=
  if rel.get_players_by_role.any (fun rp =>
      rp.1 == role_owner && rp.2.any (fun p => p.is_entity && p.type_name == obj_name)) then
    match get_relation_details auth rel with
    | .error e => .error e
    | .ok reln => .ok (some reln)
  else
    .ok none
termination_by 5 * sizeOf rel + 3
decreasing_by
  all_goals try simp only [List.cons.sizeOf_spec, Prod.mk.sizeOf_spec]
  all_goals first
    | omega
    | (have h1 : sizeOf r.get_players_by_role ≤ sizeOf r := by
         cases r <;> simp [Thing.get_players_by_role] <;> omega
       omega)
    | (have h1 : sizeOf p.get_relations ≤ sizeOf p := by
         cases p <;> simp [Thing.get_relations] <;> omega
       omega)

end

/-! ## The top-level answer decoder -/

/-- `process_relns`: unpack each relation an entity or top-level relation
participates in. -/
def process_relns (auth : Auth) : List Thing → Except String (List Rec)
  | [] => .ok []
  | r :: rest =>
    match get_relation_details auth r with
    | .error e => .error e
    | .ok reln =>
      match process_relns auth rest with
      | .error e => .error e
      | .ok relns => .ok (reln :: relns)

/-- The `edges` of a top-level relation: for every role, entity players are
reduced to references by `process_entity`; other players are skipped. -/
def ans_edges (r : Thing) : List (String × List Rec) :=
  r.get_players_by_role.map (fun rp =>
    (rp.1, rp.2.filterMap (fun t =>
      if t.is_entity then some (process_entity "stix-id" t) else none)))

/-- The `for key, thing in dict_answer.items()` loop of `convert_ans_to_res`:
entities and relations produce a record, anything else is logged and skipped. -/
def ans_bindings_loop (auth : Auth) : List (String × Thing) → Except String (List TopRec)
  | [] => .ok []
  | (key, thing) :: rest =>
    if thing.is_entity then
      match process_relns auth thing.get_relations with
      | .error e => .error e
      | .ok relns =>
        match ans_bindings_loop auth rest with
        | .error e => .error e
        | .ok items =>
          .ok (⟨"entity", key, thing.iid, thing.type_name,
            process_props thing.get_has, relns, none⟩ :: items)
    else if thing.is_relation then
      match process_relns auth thing.get_relations with
      | .error e => .error e
      | .ok relns =>
        match ans_bindings_loop auth rest with
        | .error e => .error e
        | .ok items =>
          .ok (⟨"relationship", key, thing.iid, thing.type_name,
            process_props thing.get_has, relns, some (ans_edges thing)⟩ :: items)
    else
      ans_bindings_loop auth rest

/-- `convert_ans_to_res`: decode every answer of the iterator in order,
appending the records of each answer's bindings. -/
def convert_ans_to_res (auth : Auth) : List (List (String × Thing)) →
    Except String (List TopRec)
  | [] => .ok []
  | ans :: rest =>
    match ans_bindings_loop auth ans with
    | .error e => .error e
    | .ok items =>
      match convert_ans_to_res auth rest with
      | .error e => .error e
      | .ok more => .ok (items ++ more)

/-- A call returned normally (no Python exception escaped). -/
def is_ok {α : Type} : Except String α → Bool
  | .ok _ => true
  | .error _ => false

/-- The authorization table is consistent: every name listed in an
owner-filtered membership set has a detail row, and every list-of-objects row
names a known sub-object key. -/
def auth_consistent (auth : Auth) : Bool :=
  auth.embedded_names.all (fun n => (last_match auth.embedded (fun e => e.typeql == n)).isSome)
  && auth.key_value_names.all (fun n => (last_match auth.key_value (fun e => e.typeql == n)).isSome)
  && auth.extension_names.all (fun n => (last_match auth.extension (fun e => e.relation == n)).isSome)
  && auth.list_of_objects_names.all
    (fun n => (last_match auth.list_of_objects (fun e => e.typeql == n)).isSome)
  && auth.list_of_objects.all (fun lot => auth.sub_objects.contains lot.object)

/-! ## Concrete instances used to instantiate the theorems -/

def c1_nested : Thing := .relation "nested-reln" "0x11" [] [] []

def c1_rel : Thing := .relation "object-marking" "0x10" [] [] [("marked", [c1_nested])]

def c1_auth : Auth :=
  ⟨["object-marking"], [], [], [], [], [⟨"object-marking", "marked"⟩], [], [], [], []⟩

def c2_owner_ent : Thing := .entity "other-obj" "0x23" [] []

def c2_nested : Thing := .relation "nested-rel" "0x22" [] [] [("kc-owner", [c2_owner_ent])]

def c2_player : Thing :=
  .entity "malware" "0x21" [.attribute "name" (.str ['m']) []] [c2_nested]

def c2_rel : Thing := .relation "kill-chain-usage" "0x20" [] [] [("kc-user", [c2_player])]

def c2_auth : Auth :=
  ⟨["nested-rel"], [], [], [], ["kill-chain-usage"], [⟨"nested-rel", "kc-owner"⟩], [], [],
   [⟨"kill-chain-usage", "kc-owner", "kill-chain-obj", "kill-chain-phase", "kcp"⟩],
   ["kill-chain-obj"]⟩

def c3_sub_ent : Thing := .entity "x-sub" "0x31" [.attribute "payload" (.str ['p']) []] []

def c3_rel : Thing := .relation "x-ext" "0x30" [] [] [("not-the-owner", [c3_sub_ent])]

def c3_auth : Auth := ⟨[], [], [], ["x-ext"], [], [], [], [⟨"x-ext", "x-owner", "x-sub"⟩], [], []⟩

def c4_rel : Thing :=
  .relation "file_header_hashes" "0x40" [] []
    [("owner", [.entity "x-sub" "0x41" [.attribute "stix-id" (.str ['s']) []] []]),
     ("md5", [.entity "hash-holder" "0x42" [.attribute "hash-value" (.str ['h']) []] []])]

def c4_auth : Auth := ⟨[], [], [], [], [], [], [], [], [], []⟩

def c4w_rel : Thing :=
  .relation "granular-marking" "0x45" [] []
    [("marking", [.entity "marking-definition" "0x46" [] []])]

def c6_ext_rel : Thing := .relation "bad-ext" "0x60" [] [] [("some-role", [.entity "anything" "0x61" [] []])]

def c6_ent : Thing := .entity "campaign" "0x62" [] [c6_ext_rel]

def c6_auth : Auth := ⟨[], [], [], ["bad-ext"], [], [], [], [], [], []⟩

def c6_answers : List (List (String × Thing)) := [[("a", c6_ent)]]

def c6w_auth : Auth := ⟨["emb-x"], ["uses"], [], [], [], [⟨"emb-x", "owner"⟩], [], [], [], []⟩

def c6w_answers : List (List (String × Thing)) :=
  [[("x", Thing.entity "identity" "0xW1" [.attribute "stix-id" (.str ['i']) []]
      [.relation "uses" "0xW2" [] [] []])]]

def c7_rel : Thing := .relation "coo" "0x70" [] [] [("role-a", [.entity "identity" "0x71" [] []])]

def c7_auth : Auth := ⟨["coo"], ["coo"], [], [], [], [⟨"coo", "role-a"⟩], [], [], [], []⟩

def c7w_rel : Thing := .relation "uses" "0x72" [] [] [("used-by", [.entity "campaign" "0x73" [] []])]

def c7w_auth : Auth := ⟨[], ["uses"], [], [], [], [], [], [], [], []⟩

def c5_rel : Thing := .relation "mystery-rel" "0x50" [] [] []

def c5_auth : Auth := ⟨["emb-a"], ["std-b"], [], [], [], [⟨"emb-a", "owner"⟩], [], [], [], []⟩

def c10_owner_ent : Thing :=
  .entity "file" "0xA1" [.attribute "stix-id" (.str ['f', '1']) []] []

def c10_hash_ent : Thing :=
  .entity "hash-holder" "0xA2" [.attribute "hash-value" (.str ['a', 'b']) []] []

def c10_rel : Thing :=
  .relation "hashes" "0xA0" [] [] [("owner", [c10_owner_ent]), ("sha-256", [c10_hash_ent])]

/-- Projection used to state counterexamples: the unpacked `relns` list length
of the first player of the first role. -/
def first_player_relns_count : Except String (List (String × List Rec)) → Option Nat :=
  fun e => match e with
  | .ok ((_, pl :: _) :: _) => pl.relns_of.map List.length
  | _ => none

/-- Projection used to state counterexamples: whether the first player of the
first role carries a `has` key (i.e. was fully expanded). -/
def first_player_has_present : Except String (List (String × List Rec)) → Option Bool :=
  fun e => match e with
  | .ok ((_, pl :: _) :: _) => some pl.has_of.isSome
  | _ => none

/-- Projection used to state counterexamples: the length of the `roles` list of
an unpacked relation record. -/
def roles_count : Except String Rec → Option Nat :=
  fun e => match e with
  | .ok record => record.roles_of.map List.length
  | _ => none

/-! # Theorems -/

theorem is_ok_iff {α : Type} (e : Except String α) : is_ok e = true ↔ ∃ a, e = .ok a := by
  cases e <;> simp [is_ok]

theorem not_entity_of_is_relation (p : Thing) (h : p.is_relation = true) :
    p.is_entity = false := by
  cases p <;> simp_all [Thing.is_relation, Thing.is_entity]

theorem not_entity_of_is_attribute (p : Thing) (h : p.is_attribute = true) :
    p.is_entity = false := by
  cases p <;> simp_all [Thing.is_attribute, Thing.is_entity]

/-! ## The `replace_pair` theory (string unescaping) -/

theorem replace_pair_cons_of_ne (x : Char) (l : List Char) (hx : x ≠ '\\') :
    replace_pair (x :: l) = x :: replace_pair l := by
  cases l with
  | nil => simp [replace_pair]
  | cons y t => simp [replace_pair, hx]

theorem has_pair_cons_of_ne (x : Char) (l : List Char) (hx : x ≠ '\\') :
    has_pair (x :: l) = has_pair l := by
  cases l with
  | nil => simp [has_pair]
  | cons y t => simp [has_pair, hx]

theorem has_pair_cons_bs (y : Char) (t : List Char) (hy : y ≠ '\\') :
    has_pair ('\\' :: y :: t) = has_pair (y :: t) := by
  simp [has_pair, hy]

theorem has_triple_tail (x : Char) (l : List Char) (h : has_triple (x :: l) = false) :
    has_triple l = false := by
  cases l with
  | nil => rfl
  | cons a t =>
    cases t with
    | nil => rfl
    | cons b t2 =>
      by_cases hc : x = '\\' ∧ a = '\\' ∧ b = '\\'
      · rw [has_triple, if_pos hc] at h; exact absurd h (by simp)
      · rw [has_triple, if_neg hc] at h; exact h

theorem replace_pair_id_of_no_pair : ∀ s : List Char, has_pair s = false → replace_pair s = s
  | [], _ => rfl
  | [_], _ => rfl
  | c :: d :: rest, h => by
    by_cases hc : c = '\\' ∧ d = '\\'
    · rw [has_pair, if_pos hc] at h; exact absurd h (by simp)
    · rw [replace_pair, if_neg hc]
      rw [has_pair, if_neg hc] at h
      rw [replace_pair_id_of_no_pair (d :: rest) h]

theorem no_pair_replace_of_no_triple :
    ∀ s : List Char, has_triple s = false → has_pair (replace_pair s) = false
  | [], _ => rfl
  | [_], _ => by simp [replace_pair, has_pair]
  | c :: d :: rest, h => by
    by_cases hc : c = '\\' ∧ d = '\\'
    · obtain ⟨hc1, hc2⟩ := hc
      subst hc1; subst hc2
      cases rest with
      | nil => rfl
      | cons e rest2 =>
        have he : e ≠ '\\' := by
          intro habs
          subst habs
          rw [has_triple, if_pos ⟨rfl, rfl, rfl⟩] at h
          exact absurd h (by simp)
        have hrest : has_triple (e :: rest2) = false :=
          has_triple_tail _ _ (has_triple_tail _ _ h)
        have ih := no_pair_replace_of_no_triple (e :: rest2) hrest
        rw [replace_pair, if_pos ⟨rfl, rfl⟩]
        rw [replace_pair_cons_of_ne e rest2 he]
        rw [has_pair_cons_bs e _ he]
        rw [← replace_pair_cons_of_ne e rest2 he]
        exact ih
    · have hd : has_triple (d :: rest) = false := has_triple_tail _ _ h
      have ih := no_pair_replace_of_no_triple (d :: rest) hd
      rw [replace_pair, if_neg hc]
      by_cases hcb : c = '\\'
      · have hdb : d ≠ '\\' := fun habs => hc ⟨hcb, habs⟩
        subst hcb
        rw [replace_pair_cons_of_ne d rest hdb]
        rw [has_pair_cons_bs d _ hdb]
        rw [← replace_pair_cons_of_ne d rest hdb]
        exact ih
      · rw [has_pair_cons_of_ne c _ hcb]
        exact ih

theorem mem_bs_replace_pair : ∀ s : List Char, '\\' ∈ s → '\\' ∈ replace_pair s
  | [], hm => absurd hm (List.not_mem_nil _)
  | [c], hm => by simpa [replace_pair] using hm
  | c :: d :: rest, hm => by
    by_cases hc : c = '\\' ∧ d = '\\'
    · rw [replace_pair, if_pos hc]; exact List.mem_cons_self _ _
    · rw [replace_pair, if_neg hc]
      rcases List.mem_cons.mp hm with h1 | h2
      · exact List.mem_cons.mpr (Or.inl h1)
      · exact List.mem_cons.mpr (Or.inr (mem_bs_replace_pair (d :: rest) h2))

theorem mem_bs_of_has_pair : ∀ s : List Char, has_pair s = true → '\\' ∈ s
  | [], h => by simp [has_pair] at h
  | [_], h => by simp [has_pair] at h
  | c :: d :: rest, h => by
    by_cases hc : c = '\\' ∧ d = '\\'
    · obtain ⟨hc1, _⟩ := hc
      subst hc1
      exact List.mem_cons_self _ _
    · rw [has_pair, if_neg hc] at h
      exact List.mem_cons.mpr (Or.inr (mem_bs_of_has_pair (d :: rest) h))

/-! ## C8: datetime decoding -/

theorem fmt_datetime_shape (d : PyDatetime) :
    ∃ pre frac, fmt_datetime d = pre ++ ['.'] ++ frac ++ ['Z'] ∧ frac.length = 6 := by
  refine ⟨pad4 (civil_from_days (d.local_micros.ediv 86400000000)).1.toNat ++
       ('-' :: pad2 (civil_from_days (d.local_micros.ediv 86400000000)).2.1.toNat) ++
       ('-' :: pad2 (civil_from_days (d.local_micros.ediv 86400000000)).2.2.toNat) ++
       ('T' :: pad2 (((d.local_micros.emod 86400000000).toNat / 1000000) / 3600)) ++
       (':' :: pad2 ((((d.local_micros.emod 86400000000).toNat / 1000000) % 3600) / 60)) ++
       (':' :: pad2 (((d.local_micros.emod 86400000000).toNat / 1000000) % 60)),
     pad6 ((d.local_micros.emod 86400000000).toNat % 1000000), ?_, ?_⟩
  · unfold fmt_datetime
    simp [List.append_assoc]
  · simp [pad6]

/-- C8: for a datetime-valued attribute the decoded property's value is the
UTC-normalized instant formatted by `strftime("%Y-%m-%dT%H:%M:%S.%fZ")` — it
decomposes as a prefix, a dot, exactly six fractional digits and a literal
trailing `Z` — its `datetime` flag is `true`, and the output depends only on
the instant, not on the input's time zone offset. -/
theorem c8_datetime_decode (t : String) (hs : List Thing) (d : PyDatetime) :
    process_props [Thing.attribute t (.dt d) hs]
      = [⟨t, .str (fmt_datetime ⟨d.instant, 0⟩), true⟩]
    ∧ (∃ pre frac, fmt_datetime ⟨d.instant, 0⟩ = pre ++ ['.'] ++ frac ++ ['Z']
        ∧ frac.length = 6)
    ∧ (∀ d' : PyDatetime, d'.instant = d.instant →
        process_props [Thing.attribute t (.dt d') hs]
          = process_props [Thing.attribute t (.dt d) hs]) := by
  refine ⟨?_, fmt_datetime_shape _, ?_⟩
  · simp [process_props, astimezone_utc, PyDatetime.instant]
  · intro d' hinst
    have hz : astimezone_utc d' = astimezone_utc d := by
      simp only [astimezone_utc, PyDatetime.mk.injEq, and_true]
      simpa [PyDatetime.instant] using hinst
    simp [process_props, hz]

theorem c8_datetime_decode_witness :
    (⟨1672560000000000, 0⟩ : PyDatetime).instant
        = (⟨1672567200000000, 120⟩ : PyDatetime).instant
    ∧ process_props [Thing.attribute "created" (.dt ⟨1672560000000000, 0⟩) []]
        = process_props [Thing.attribute "created" (.dt ⟨1672567200000000, 120⟩) []] :=
  ⟨by decide,
   (c8_datetime_decode "created" [] ⟨1672567200000000, 120⟩).2.2
     ⟨1672560000000000, 0⟩ (by decide)⟩

/-! ## C9: string decoding -/

/-- C9 counterexample: string decoding is not idempotent.  Decoding an
already-decoded value changes it again: three backslashes decode to two, which
decode further to one. -/
theorem c9_cx_not_idempotent :
    ¬ (process_props [Thing.attribute "name" (.str (replace_pair ['\\', '\\', '\\'])) []]
        = [⟨"name", .str (replace_pair ['\\', '\\', '\\']), false⟩]) := by
  decide

/-- C9 (amended): a string-valued attribute decodes by collapsing `\\\\` pairs
left to right; if the value contains a backslash pair the decoded value
contains a single backslash; and decoding is idempotent for values with no
three consecutive backslashes (for a run of three or more it is not — see the
counterexample). -/
theorem c9_string_decode (t : String) (hs : List Thing) (s : List Char) :
    process_props [Thing.attribute t (.str s) hs] = [⟨t, .str (replace_pair s), false⟩]
    ∧ (has_pair s = true → '\\' ∈ replace_pair s)
    ∧ (has_triple s = false → replace_pair (replace_pair s) = replace_pair s) := by
  refine ⟨by simp [process_props], ?_, ?_⟩
  · intro h
    exact mem_bs_replace_pair s (mem_bs_of_has_pair s h)
  · intro h
    exact replace_pair_id_of_no_pair _ (no_pair_replace_of_no_triple s h)

theorem c9_string_decode_witness :
    has_pair ['a', '\\', '\\', 'b'] = true
    ∧ has_triple ['a', '\\', '\\', 'b'] = false
    ∧ '\\' ∈ replace_pair ['a', '\\', '\\', 'b']
    ∧ replace_pair (replace_pair ['a', '\\', '\\', 'b']) = replace_pair ['a', '\\', '\\', 'b'] :=
  ⟨by decide, by decide,
   (c9_string_decode "name" [] ['a', '\\', '\\', 'b']).2.1 (by decide),
   (c9_string_decode "name" [] ['a', '\\', '\\', 'b']).2.2 (by decide)⟩

/-! ## C10: the hashes category -/

/-- C10: in the output of `get_hashes`, no player ever carries both a
`stix_id` and a `hash_value` key; every player of the role named `owner` has no
`hash_value` key and its `stix_id` key holds exactly the (last) value of the
source entity's `stix-id` attribute; every player of any other role has no
`stix_id` key and its `hash_value` key holds exactly the (last) value of the
source entity's `hash-value` attribute. -/
theorem c10_hashes_fields (r : Thing) :
    ∀ rp ∈ get_hashes r, ∀ play ∈ rp.2,
      (¬ (play.stix_id_of.isSome = true ∧ play.hash_value_of.isSome = true))
      ∧ (rp.1 = "owner" → play.hash_value_of = none ∧
          ∃ p, (∃ ps, (rp.1, ps) ∈ r.get_players_by_role ∧ p ∈ ps) ∧ p.is_entity = true ∧
            play.stix_id_of = last_attr_value p "stix-id")
      ∧ (rp.1 ≠ "owner" → play.stix_id_of = none ∧
          ∃ p, (∃ ps, (rp.1, ps) ∈ r.get_players_by_role ∧ p ∈ ps) ∧ p.is_entity = true ∧
            play.hash_value_of = last_attr_value p "hash-value") := by
  intro rp hrp play hplay
  unfold get_hashes at hrp
  rw [List.mem_map] at hrp
  obtain ⟨rp0, hrp0, rfl⟩ := hrp
  simp only at hplay
  rw [List.mem_filterMap] at hplay
  obtain ⟨p, hp, hf⟩ := hplay
  by_cases hent : p.is_entity
  · simp only [hent, if_true, Option.some.injEq] at hf
    subst hf
    have hmem : ∃ ps, (rp0.1, ps) ∈ r.get_players_by_role ∧ p ∈ ps :=
      ⟨rp0.2, by simpa using hrp0, hp⟩
    by_cases how : rp0.1 = "owner"
    · refine ⟨?_, ?_, ?_⟩
      · simp [Rec.stix_id_of, Rec.hash_value_of, how]
      · intro _
        exact ⟨by simp [Rec.hash_value_of, how], p, hmem, hent, by simp [Rec.stix_id_of, how]⟩
      · intro hne
        exact absurd how hne
    · refine ⟨?_, ?_, ?_⟩
      · simp [Rec.stix_id_of, Rec.hash_value_of, how]
      · intro habs
        exact absurd habs how
      · intro _
        exact ⟨by simp [Rec.stix_id_of, how], p, hmem, hent, by simp [Rec.hash_value_of, how]⟩
  · simp [hent] at hf

theorem c10_hashes_fields_witness :
    ¬ ((Rec.play "entity" "file" (some (.str ['f', '1'])) none none none none none).stix_id_of.isSome = true
        ∧ (Rec.play "entity" "file" (some (.str ['f', '1'])) none none none none none).hash_value_of.isSome = true) := by
  have h1 : ("owner",
      [Rec.play "entity" "file" (some (.str ['f', '1'])) none none none none none])
      ∈ get_hashes c10_rel := by
    have he : get_hashes c10_rel =
        [("owner", [Rec.play "entity" "file" (some (.str ['f', '1'])) none none none none none]),
         ("sha-256", [Rec.play "entity" "hash-holder" none (some (.str ['a', 'b'])) none none none none])] := by
      rfl
    rw [he]
    exact List.mem_cons_self _ _
  exact (c10_hashes_fields c10_rel _ h1 _ (List.mem_singleton.mpr rfl)).1

/-- Helper: the embedded branch of the dispatch. -/
theorem grd_embedded_eq (auth : Auth) (r : Thing)
    (hname : auth.embedded_names.contains r.type_name = true) :
    get_relation_details auth r
      = .ok (.reln r.type_name r.iid (some (get_embedded_relations r))) := by
  have h : r.type_name ∈ auth.embedded_names := by simpa using hname
  unfold get_relation_details
  simp [h]

/-! ## C1: the embedded category -/

/-- C1 counterexample: in the embedded category, a relation player does not
become a recursive relation record with its own resolved category — it becomes
a flat player dict tagged `"attribute"` carrying only the type name and the
identifier attribute.  Here the single player of the single role is a relation
and the produced record is not a `reln`. -/
theorem c1_cx_relation_player_flat :
    get_embedded_relations c1_rel
      = [("marked", [Rec.play "attribute" "nested-reln" none none none none none none])]
    ∧ (get_embedded_relations c1_rel).all (fun rp => rp.2.all Rec.is_reln) = false :=
  ⟨rfl, rfl⟩

/-- C1 (amended): for a relation whose type name is in the embedded membership
set, `get_relation_details` unpacks the role/player map so that every entity
player becomes the `process_entity` reference and every relation player becomes
the `process_relation` record — a flat dict tagged `"attribute"` with the
player's type name and identifier value, carrying no recursive unpacking (no
`relns`, no `roles`). -/
theorem c1_embedded_unpack (auth : Auth) (r : Thing)
    (hname : auth.embedded_names.contains r.type_name = true) :
    get_relation_details auth r
      = .ok (.reln r.type_name r.iid (some (get_embedded_relations r)))
    ∧ ∀ role players, (role, players) ∈ r.get_players_by_role →
        ∃ plays, (role, plays) ∈ get_embedded_relations r
          ∧ (∀ p ∈ players, p.is_entity = true → process_entity "stix-id" p ∈ plays)
          ∧ (∀ p ∈ players, p.is_relation = true →
              process_relation "stix-id" p ∈ plays
              ∧ (process_relation "stix-id" p).is_reln = false
              ∧ (process_relation "stix-id" p).type_of = "attribute"
              ∧ (process_relation "stix-id" p).relns_of = none
              ∧ (process_relation "stix-id" p).roles_of = none) := by
  constructor
  · exact grd_embedded_eq auth r hname
  · intro role players hmem
    refine ⟨players.filterMap (fun p =>
      if p.is_entity then some (process_entity "stix-id" p)
      else if p.is_relation then some (process_relation "stix-id" p)
      else none), ?_, ?_, ?_⟩
    · unfold get_embedded_relations reln_map_entity_relation
      exact List.mem_map.mpr ⟨(role, players), hmem, rfl⟩
    · intro p hp hent
      exact List.mem_filterMap.mpr ⟨p, hp, by simp [hent]⟩
    · intro p hp hrel
      have hne := not_entity_of_is_relation p hrel
      refine ⟨List.mem_filterMap.mpr ⟨p, hp, by simp [hne, hrel]⟩, ?_, ?_, ?_, ?_⟩
      · simp [process_relation, Rec.is_reln]
      · simp [process_relation, Rec.type_of]
      · simp [process_relation, Rec.relns_of]
      · simp [process_relation, Rec.roles_of]

theorem c1_embedded_unpack_witness :
    get_relation_details c1_auth c1_rel
      = .ok (.reln "object-marking" "0x10" (some (get_embedded_relations c1_rel)))
    ∧ ∃ plays, ("marked", plays) ∈ get_embedded_relations c1_rel
        ∧ process_relation "stix-id" c1_nested ∈ plays := by
  have h := c1_embedded_unpack c1_auth c1_rel (by decide)
  refine ⟨h.1, ?_⟩
  obtain ⟨plays, hmem, _, hrel⟩ := h.2 "marked" [c1_nested] (List.mem_singleton.mpr rfl)
  exact ⟨plays, hmem, (hrel c1_nested (List.mem_singleton.mpr rfl) rfl).1⟩

/-! ## C2: the list-of-objects category -/

/-- C2 counterexample: `get_list_of_objects` attaches every nested relation of
an expanded entity player, with no owner-role validation.  Here the expanded
player has one nested relation whose owner-role player's type (`other-obj`)
differs from the configured sub-object type (`kill-chain-obj`), yet its
`relns` list has length 1 rather than the empty list the claim requires. -/
theorem c2_cx_nested_relation_kept :
    first_player_relns_count (get_list_of_objects c2_auth c2_rel) = some 1
    ∧ ¬ (first_player_relns_count (get_list_of_objects c2_auth c2_rel) = some 0) :=
  ⟨rfl, by decide⟩

/-- C2 (amended): for a list-of-objects relation (when every matching auth row
names a known sub-object key, so no `KeyError` escapes), every entity player of
every role is fully expanded — `has` holds its decoded properties and `relns`
holds one record per relation the player participates in — and every nested
relation is kept, unpacked by `reln_map_entity_relation`, with no owner-role
validation. -/
theorem c2_list_of_objects_expand (auth : Auth) (r : Thing)
    (hok : (auth.list_of_objects.filter (fun lot => r.type_name == lot.typeql)).all
        (fun lot => auth.sub_objects.contains lot.object) = true) :
    ∃ roles, get_list_of_objects auth r = .ok roles
      ∧ ∀ role players, (role, players) ∈ r.get_players_by_role →
          ∃ plays, (role, plays) ∈ roles
            ∧ ∀ p ∈ players, p.is_entity = true →
                ∃ relns,
                  Rec.play "entity" p.type_name none none none none
                      (some (process_props p.get_has)) (some relns) ∈ plays
                  ∧ (∀ rel ∈ p.get_relations,
                      Rec.reln rel.type_name rel.iid
                        (some (reln_map_entity_relation "stix-id" rel.get_players_by_role))
                        ∈ relns) := by
  refine ⟨r.get_players_by_role.map (fun rp =>
      (rp.1, rp.2.filterMap (fun p =>
        if p.is_entity then
          some (.play "entity" p.type_name none none none none
            (some (process_props p.get_has))
            (some (p.get_relations.map (fun rel =>
              Rec.reln rel.type_name rel.iid
                (some (reln_map_entity_relation "stix-id" rel.get_players_by_role))))))
        else none))), ?_, ?_⟩
  · unfold get_list_of_objects
    rw [if_pos hok]
  · intro role players hmem
    refine ⟨_, List.mem_map.mpr ⟨(role, players), hmem, rfl⟩, ?_⟩
    intro p hp hent
    refine ⟨p.get_relations.map (fun rel =>
      Rec.reln rel.type_name rel.iid
        (some (reln_map_entity_relation "stix-id" rel.get_players_by_role))), ?_, ?_⟩
    · exact List.mem_filterMap.mpr ⟨p, hp, by simp [hent]⟩
    · intro rel hrel
      exact List.mem_map.mpr ⟨rel, hrel, rfl⟩

theorem c2_list_of_objects_expand_witness :
    ∃ roles, get_list_of_objects c2_auth c2_rel = .ok roles
      ∧ ∃ plays, ("kc-user", plays) ∈ roles
        ∧ ∃ relns,
            Rec.play "entity" "malware" none none none none
                (some (process_props c2_player.get_has)) (some relns) ∈ plays
            ∧ Rec.reln "nested-rel" "0x22"
                (some (reln_map_entity_relation "stix-id" c2_nested.get_players_by_role))
                ∈ relns := by
  obtain ⟨roles, hok, hall⟩ := c2_list_of_objects_expand c2_auth c2_rel (by decide)
  obtain ⟨plays, hmem, hexp⟩ := hall "kc-user" [c2_player] (List.mem_singleton.mpr rfl)
  obtain ⟨relns, hplay, hkeep⟩ := hexp c2_player (List.mem_singleton.mpr rfl) rfl
  exact ⟨roles, hok, plays, hmem, relns, hplay,
    hkeep c2_nested (List.mem_singleton.mpr rfl)⟩

/-! ## C5: unknown relation category -/

/-- C5: a relation whose declared type name is in no membership set and is none
of the literal names `sighting`, `granular-marking`, `hashes`,
`file_header_hashes` falls to the error-logging branch of
`get_relation_details`, which reports the error and returns the record with no
unpacked roles (`roles = none`). -/
theorem c5_unknown_category (auth : Auth) (r : Thing)
    (h1 : auth.embedded_names.contains r.type_name = false)
    (h2 : auth.standard_names.contains r.type_name = false)
    (h3 : auth.key_value_names.contains r.type_name = false)
    (h4 : auth.extension_names.contains r.type_name = false)
    (h5 : auth.list_of_objects_names.contains r.type_name = false)
    (h6 : r.type_name ≠ "sighting")
    (h7 : r.type_name ≠ "granular-marking")
    (h8 : r.type_name ≠ "hashes")
    (h9 : r.type_name ≠ "file_header_hashes") :
    get_relation_details auth r = .ok (.reln r.type_name r.iid none) := by
  have m1 : r.type_name ∉ auth.embedded_names := by simpa using h1
  have m2 : r.type_name ∉ auth.standard_names := by simpa using h2
  have m3 : r.type_name ∉ auth.key_value_names := by simpa using h3
  have m4 : r.type_name ∉ auth.extension_names := by simpa using h4
  have m5 : r.type_name ∉ auth.list_of_objects_names := by simpa using h5
  unfold get_relation_details
  simp [m1, m2, m3, m4, m5, h6, h7, h8, h9]

theorem c5_unknown_category_witness :
    get_relation_details c5_auth c5_rel = .ok (.reln "mystery-rel" "0x50" none) :=
  c5_unknown_category c5_auth c5_rel (by decide) (by decide) (by decide) (by decide)
    (by decide) (by decide) (by decide) (by decide) (by decide)

/-! ## C7: the standard category -/

/-- C7 counterexample: the dispatch of `get_relation_details` is first-match,
and the embedded branch precedes the standard branch.  With a type name listed
in both the embedded and standard membership sets and a role with one entity
player, the unpacked role list has length 1 — not the empty list the claim
requires for every name in the standard set. -/
theorem c7_cx_standard_shadowed_by_embedded :
    roles_count (get_relation_details c7_auth c7_rel) = some 1
    ∧ ¬ (roles_count (get_relation_details c7_auth c7_rel) = some 0) := by
  have h : get_relation_details c7_auth c7_rel
      = .ok (.reln "coo" "0x70" (some (get_embedded_relations c7_rel))) :=
    grd_embedded_eq c7_auth c7_rel (by decide)
  rw [h]
  exact ⟨rfl, by decide⟩

/-- C7 (amended): a relation whose declared type name is in the standard
membership set or is the literal name `sighting` — and is not captured first by
the embedded branch — is unpacked by `get_standard_relations`, so its role list
is always the empty list. -/
theorem c7_standard_empty_roles (auth : Auth) (r : Thing)
    (hemb : auth.embedded_names.contains r.type_name = false)
    (hstd : auth.standard_names.contains r.type_name = true ∨ r.type_name = "sighting") :
    get_relation_details auth r = .ok (.reln r.type_name r.iid (some [])) := by
  have m1 : r.type_name ∉ auth.embedded_names := by simpa using hemb
  unfold get_relation_details
  rcases hstd with hstd | hstd
  · have m2 : r.type_name ∈ auth.standard_names := by simpa using hstd
    simp [m1, m2, get_standard_relations]
  · simp only [hstd] at m1 ⊢
    simp [m1, get_standard_relations]

theorem c7_standard_empty_roles_witness :
    get_relation_details c7w_auth c7w_rel = .ok (.reln "uses" "0x72" (some [])) :=
  c7_standard_empty_roles c7w_auth c7w_rel (by decide) (Or.inl (by decide))

/-! ## C3: the extension category

Characterization lemmas for the three loops of `get_extension_relations`. -/

theorem ext_validate_loop_ok_mem (auth : Auth) (obj : String) :
    ∀ (rels : List Thing) (out : List Rec), ext_validate_loop auth obj rels = .ok out →
      ∀ rec ∈ out, ∃ rel ∈ rels, validate_get_relns auth rel obj = .ok (some rec)
  | [], out, hok => by
    rw [ext_validate_loop.eq_1] at hok
    simp only [Except.ok.injEq] at hok
    subst hok
    intro rec hrec
    exact absurd hrec (List.not_mem_nil _)
  | rel :: rest, out, hok => by
    rw [ext_validate_loop.eq_def] at hok
    cases hv : validate_get_relns auth rel obj with
    | error e =>
      simp only [hv] at hok
      exact Except.noConfusion hok
    | ok o =>
      simp only [hv] at hok
      cases o with
      | none =>
        intro rec hrec
        obtain ⟨rel2, hrel2, hv2⟩ := ext_validate_loop_ok_mem auth obj rest out hok rec hrec
        exact ⟨rel2, List.mem_cons_of_mem _ hrel2, hv2⟩
      | some r0 =>
        cases hrest : ext_validate_loop auth obj rest with
        | error e =>
          simp only [hrest] at hok
          exact Except.noConfusion hok
        | ok relns =>
          simp only [hrest, Except.ok.injEq] at hok
          subst hok
          intro rec hrec
          rcases List.mem_cons.mp hrec with h1 | h2
          · subst h1
            exact ⟨rel, List.mem_cons_self _ _, hv⟩
          · obtain ⟨rel2, hrel2, hv2⟩ :=
              ext_validate_loop_ok_mem auth obj rest relns hrest rec h2
            exact ⟨rel2, List.mem_cons_of_mem _ hrel2, hv2⟩

theorem ext_players_loop_ok_mem (auth : Auth) (obj : String) :
    ∀ (ps : List Thing) (out : List Rec), ext_players_loop auth (some obj) ps = .ok out →
      ∀ p ∈ ps,
        (p.is_entity = true → p.type_name = obj →
          ∃ relns, ext_validate_loop auth obj p.get_relations = .ok relns
            ∧ Rec.play "entity" p.type_name none none none none
                (some (process_props p.get_has)) (some relns) ∈ out)
        ∧ (p.is_entity = true → p.type_name ≠ obj →
            Rec.play "entity" p.type_name (last_attr_value p "stix-id")
              none none none none none ∈ out)
        ∧ (p.is_attribute = true →
            Rec.play "attribute" p.type_name none none (some (process_value p))
              none none none ∈ out)
  | [], out, hok => by
    intro p hp
    exact absurd hp (List.not_mem_nil _)
  | q :: rest, out, hok => by
    rw [ext_players_loop.eq_def] at hok
    intro p hp
    cases hent : q.is_entity with
    | true =>
      simp only [hent, if_true] at hok
      cases hty : (q.type_name == obj) with
      | true =>
        simp only [hty, if_true] at hok
        cases hv : ext_validate_loop auth obj q.get_relations with
        | error e =>
          simp only [hv] at hok
          exact Except.noConfusion hok
        | ok relns =>
          simp only [hv] at hok
          cases hrest : ext_players_loop auth (some obj) rest with
          | error e =>
            simp only [hrest] at hok
            exact Except.noConfusion hok
          | ok plays =>
            simp only [hrest, Except.ok.injEq] at hok
            subst hok
            rcases List.mem_cons.mp hp with rfl | hp2
            · refine ⟨?_, ?_, ?_⟩
              · intro _ _
                exact ⟨relns, hv, List.mem_cons_self _ _⟩
              · intro _ htyne
                exact absurd (by simpa using hty) htyne
              · intro hattr
                rw [not_entity_of_is_attribute p hattr] at hent
                exact absurd hent (by simp)
            · have ih := ext_players_loop_ok_mem auth obj rest plays hrest p hp2
              exact ⟨fun h1 h2 => (ih.1 h1 h2).imp
                  (fun relns2 h3 => ⟨h3.1, List.mem_cons_of_mem _ h3.2⟩),
                fun h1 h2 => List.mem_cons_of_mem _ (ih.2.1 h1 h2),
                fun h1 => List.mem_cons_of_mem _ (ih.2.2 h1)⟩
      | false =>
        simp only [hty, Bool.false_eq_true, if_false] at hok
        cases hrest : ext_players_loop auth (some obj) rest with
        | error e =>
          simp only [hrest] at hok
          exact Except.noConfusion hok
        | ok plays =>
          simp only [hrest, Except.ok.injEq] at hok
          subst hok
          rcases List.mem_cons.mp hp with rfl | hp2
          · refine ⟨?_, ?_, ?_⟩
            · intro _ htyeq
              exact absurd htyeq (by simpa using hty)
            · intro _ _
              exact List.mem_cons_self _ _
            · intro hattr
              rw [not_entity_of_is_attribute p hattr] at hent
              exact absurd hent (by simp)
          · have ih := ext_players_loop_ok_mem auth obj rest plays hrest p hp2
            exact ⟨fun h1 h2 => (ih.1 h1 h2).imp
                (fun relns2 h3 => ⟨h3.1, List.mem_cons_of_mem _ h3.2⟩),
              fun h1 h2 => List.mem_cons_of_mem _ (ih.2.1 h1 h2),
              fun h1 => List.mem_cons_of_mem _ (ih.2.2 h1)⟩
    | false =>
      simp only [hent, Bool.false_eq_true, if_false] at hok
      cases hattr : q.is_attribute with
      | true =>
        simp only [hattr, if_true] at hok
        cases hrest : ext_players_loop auth (some obj) rest with
        | error e =>
          simp only [hrest] at hok
          exact Except.noConfusion hok
        | ok plays =>
          simp only [hrest, Except.ok.injEq] at hok
          subst hok
          rcases List.mem_cons.mp hp with rfl | hp2
          · refine ⟨?_, ?_, ?_⟩
            · intro h1 _
              rw [h1] at hent
              exact absurd hent (by simp)
            · intro h1 _
              rw [h1] at hent
              exact absurd hent (by simp)
            · intro _
              exact List.mem_cons_self _ _
          · have ih := ext_players_loop_ok_mem auth obj rest plays hrest p hp2
            exact ⟨fun h1 h2 => (ih.1 h1 h2).imp
                (fun relns2 h3 => ⟨h3.1, List.mem_cons_of_mem _ h3.2⟩),
              fun h1 h2 => List.mem_cons_of_mem _ (ih.2.1 h1 h2),
              fun h1 => List.mem_cons_of_mem _ (ih.2.2 h1)⟩
      | false =>
        simp only [hattr, Bool.false_eq_true, if_false] at hok
        rcases List.mem_cons.mp hp with rfl | hp2
        · refine ⟨?_, ?_, ?_⟩
          · intro h1 _
            rw [h1] at hent
            exact absurd hent (by simp)
          · intro h1 _
            rw [h1] at hent
            exact absurd hent (by simp)
          · intro h1
            rw [h1] at hattr
            exact absurd hattr (by simp)
        · exact ext_players_loop_ok_mem auth obj rest out hok p hp2

theorem ext_roles_loop_ok_mem (auth : Auth) (o : Option String) :
    ∀ (rm : List (String × List Thing)) (roles : List (String × List Rec)),
      ext_roles_loop auth o rm = .ok roles →
      ∀ role players, (role, players) ∈ rm →
        ∃ plays, (role, plays) ∈ roles ∧ ext_players_loop auth o players = .ok plays
  | [], roles, hok => by
    intro role players hmem
    exact absurd hmem (List.not_mem_nil _)
  | (role0, players0) :: rest, roles, hok => by
    rw [ext_roles_loop.eq_def] at hok
    cases hpl : ext_players_loop auth o players0 with
    | error e =>
      simp only [hpl] at hok
      exact Except.noConfusion hok
    | ok plays0 =>
      simp only [hpl] at hok
      cases hrest : ext_roles_loop auth o rest with
      | error e =>
        simp only [hrest] at hok
        exact Except.noConfusion hok
      | ok roles2 =>
        simp only [hrest, Except.ok.injEq] at hok
        subst hok
        intro role players hmem
        rcases List.mem_cons.mp hmem with heq | hmem2
        · injection heq with h1 h2
          subst h1
          subst h2
          exact ⟨plays0, List.mem_cons_self _ _, hpl⟩
        · obtain ⟨plays, hmem3, hpl3⟩ :=
            ext_roles_loop_ok_mem auth o rest roles2 hrest role players hmem2
          exact ⟨plays, List.mem_cons_of_mem _ hmem3, hpl3⟩

/-- C3 (amended): for an extension relation whose detail row names the
sub-object type, any entity player of any role — not only the owner role's —
whose type name equals that sub-object type is fully expanded (`has` plus the
validated relations, each accepted by `validate_get_relns`); every other entity
player is reduced to a reference carrying only the identifier value; attribute
players carry their value with no props. -/
theorem c3_extension_unpack (auth : Auth) (r : Thing) (ext : ExtEntry)
    (hfind : last_match auth.extension (fun e => e.relation == r.type_name) = some ext)
    (roles : List (String × List Rec))
    (hok : get_extension_relations auth r = .ok roles) :
    ∀ role players, (role, players) ∈ r.get_players_by_role →
      ∃ plays, (role, plays) ∈ roles
        ∧ ∀ p ∈ players,
            (p.is_entity = true → p.type_name = ext.object →
              ∃ relns, ext_validate_loop auth ext.object p.get_relations = .ok relns
                ∧ Rec.play "entity" p.type_name none none none none
                    (some (process_props p.get_has)) (some relns) ∈ plays
                ∧ (∀ rec ∈ relns, ∃ rel ∈ p.get_relations,
                    validate_get_relns auth rel ext.object = .ok (some rec)))
            ∧ (p.is_entity = true → p.type_name ≠ ext.object →
                Rec.play "entity" p.type_name (last_attr_value p "stix-id")
                  none none none none none ∈ plays)
            ∧ (p.is_attribute = true →
                Rec.play "attribute" p.type_name none none (some (process_value p))
                  none none none ∈ plays) := by
  rw [get_extension_relations.eq_def] at hok
  rw [hfind] at hok
  simp only [Option.map_some'] at hok
  intro role players hmem
  obtain ⟨plays, hpm, hpl⟩ := ext_roles_loop_ok_mem auth (some ext.object) _ _ hok role players hmem
  refine ⟨plays, hpm, ?_⟩
  intro p hp
  have h3 := ext_players_loop_ok_mem auth ext.object players plays hpl p hp
  refine ⟨?_, h3.2.1, h3.2.2⟩
  intro hent hty
  obtain ⟨relns, hvl, hmem2⟩ := h3.1 hent hty
  exact ⟨relns, hvl, hmem2,
    fun rec hrec => ext_validate_loop_ok_mem auth ext.object _ _ hvl rec hrec⟩

theorem c3_eval_players : ext_players_loop c3_auth (some "x-sub") [c3_sub_ent]
    = .ok [Rec.play "entity" "x-sub" none none none none
        (some (process_props c3_sub_ent.get_has)) (some [])] := by
  rw [ext_players_loop.eq_def]
  simp only [show c3_sub_ent.is_entity = true from rfl,
    show (c3_sub_ent.type_name == "x-sub") = true from rfl,
    show c3_sub_ent.get_relations = [] from rfl,
    ext_validate_loop.eq_1, ext_players_loop.eq_1, if_true,
    show c3_sub_ent.type_name = "x-sub" from rfl, beq_self_eq_true]

theorem c3_eval_ger : get_extension_relations c3_auth c3_rel
    = .ok [("not-the-owner", [Rec.play "entity" "x-sub" none none none none
        (some (process_props c3_sub_ent.get_has)) (some [])])] := by
  rw [get_extension_relations.eq_def]
  simp only [show (last_match c3_auth.extension (fun e => e.relation == c3_rel.type_name)).map
      (fun e => e.object) = some "x-sub" from rfl,
    show c3_rel.get_players_by_role = [("not-the-owner", [c3_sub_ent])] from rfl]
  rw [ext_roles_loop.eq_def]
  simp only [c3_eval_players, ext_roles_loop.eq_1]

/-- C3 counterexample: `get_extension_relations` compares every entity player's
type name against the configured sub-object type with no regard for the role.
Here the only player fills a role different from the configured owner role
(`x-owner`), yet — because its type name matches — it is fully expanded (its
`has` key is present), where the claim requires a bare reference. -/
theorem c3_cx_non_owner_role_expanded :
    first_player_has_present (get_extension_relations c3_auth c3_rel) = some true
    ∧ ¬ (first_player_has_present (get_extension_relations c3_auth c3_rel) = some false) := by
  rw [c3_eval_ger]
  exact ⟨rfl, by simp [first_player_has_present, Rec.has_of]⟩

theorem c3_extension_unpack_witness :
    ∃ plays, ("not-the-owner", plays) ∈ [("not-the-owner",
        [Rec.play "entity" "x-sub" none none none none
          (some (process_props c3_sub_ent.get_has)) (some [])])]
      ∧ ∃ relns, ext_validate_loop c3_auth "x-sub" c3_sub_ent.get_relations = .ok relns
        ∧ Rec.play "entity" "x-sub" none none none none
            (some (process_props c3_sub_ent.get_has)) (some relns) ∈ plays := by
  have h := c3_extension_unpack c3_auth c3_rel ⟨"x-ext", "x-owner", "x-sub"⟩ rfl _ c3_eval_ger
  obtain ⟨plays, hmem, hall⟩ := h "not-the-owner" [c3_sub_ent] (List.mem_singleton.mpr rfl)
  obtain ⟨relns, hvl, hplay, _⟩ := (hall c3_sub_ent (List.mem_singleton.mpr rfl)).1 rfl rfl
  exact ⟨plays, hmem, relns, hvl, hplay⟩

/-! ## C4: the relation validator -/

theorem owner_match_iff (rm : List (String × List Thing)) (owner obj : String) :
    (rm.any (fun rp => rp.1 == owner && rp.2.any
        (fun p => p.is_entity && p.type_name == obj)) = true)
    ↔ ∃ players, (owner, players) ∈ rm
        ∧ ∃ p ∈ players, p.is_entity = true ∧ p.type_name = obj := by
  rw [List.any_eq_true]
  constructor
  · rintro ⟨rp, hrp, hcond⟩
    rw [Bool.and_eq_true] at hcond
    obtain ⟨h1, h2⟩ := hcond
    rw [beq_iff_eq] at h1
    rw [List.any_eq_true] at h2
    obtain ⟨p, hp, hpc⟩ := h2
    rw [Bool.and_eq_true, beq_iff_eq] at hpc
    refine ⟨rp.2, ?_, p, hp, hpc⟩
    rw [← h1]
    simpa using hrp
  · rintro ⟨players, hmem, p, hp, hent, hty⟩
    refine ⟨(owner, players), hmem, ?_⟩
    rw [Bool.and_eq_true]
    constructor
    · simp
    · rw [List.any_eq_true]
      refine ⟨p, hp, ?_⟩
      rw [Bool.and_eq_true, beq_iff_eq]
      exact ⟨hent, hty⟩

theorem map_some_ne_ok_none {α : Type} (e : Except String α) :
    ¬ (Except.map Option.some e = .ok none) := by
  cases e <;> simp [Except.map]

/-- C4 (amended): for a candidate nested relation, `validate_get_relns`
dispatches on its declared type name: for the embedded / key-value / extension
/ list-of-objects categories it fetches the configured owner role from the
matching detail row and keeps the relation (unpacked in full) exactly when some
player of that owner role is an entity whose type name equals the sub-object
type being expanded; a relation named `granular-marking` or `hashes` is always
kept; but a relation named `file_header_hashes` — although the dispatch of
`get_relation_details` sends it to the hashes handler — matches no branch of
the validator and is dropped. -/
theorem c4_validator_dispatch (auth : Auth) (r : Thing) (obj : String) :
    (∀ e, auth.embedded_names.contains r.type_name = true →
        last_match auth.embedded (fun x => x.typeql == r.type_name) = some e →
        validate_get_relns auth r obj = return_valid_relations auth r obj e.owner)
    ∧ (∀ e, auth.embedded_names.contains r.type_name = false →
        auth.key_value_names.contains r.type_name = true →
        last_match auth.key_value (fun x => x.typeql == r.type_name) = some e →
        validate_get_relns auth r obj = return_valid_relations auth r obj e.owner)
    ∧ (∀ e, auth.embedded_names.contains r.type_name = false →
        auth.key_value_names.contains r.type_name = false →
        auth.extension_names.contains r.type_name = true →
        last_match auth.extension (fun x => x.relation == r.type_name) = some e →
        validate_get_relns auth r obj = return_valid_relations auth r obj e.owner)
    ∧ (∀ e, auth.embedded_names.contains r.type_name = false →
        auth.key_value_names.contains r.type_name = false →
        auth.extension_names.contains r.type_name = false →
        auth.list_of_objects_names.contains r.type_name = true →
        last_match auth.list_of_objects (fun x => x.typeql == r.type_name) = some e →
        validate_get_relns auth r obj = return_valid_relations auth r obj e.owner)
    ∧ (auth.embedded_names.contains r.type_name = false →
        auth.key_value_names.contains r.type_name = false →
        auth.extension_names.contains r.type_name = false →
        auth.list_of_objects_names.contains r.type_name = false →
        r.type_name = "granular-marking" →
        validate_get_relns auth r obj = Except.map Option.some (get_relation_details auth r))
    ∧ (auth.embedded_names.contains r.type_name = false →
        auth.key_value_names.contains r.type_name = false →
        auth.extension_names.contains r.type_name = false →
        auth.list_of_objects_names.contains r.type_name = false →
        r.type_name = "hashes" →
        validate_get_relns auth r obj = Except.map Option.some (get_relation_details auth r))
    ∧ (auth.embedded_names.contains r.type_name = false →
        auth.key_value_names.contains r.type_name = false →
        auth.extension_names.contains r.type_name = false →
        auth.list_of_objects_names.contains r.type_name = false →
        r.type_name ≠ "granular-marking" →
        r.type_name ≠ "hashes" →
        validate_get_relns auth r obj = .ok none)
    ∧ (∀ owner,
        (return_valid_relations auth r obj owner
            = Except.map Option.some (get_relation_details auth r)
          ↔ ∃ players, (owner, players) ∈ r.get_players_by_role
              ∧ ∃ p ∈ players, p.is_entity = true ∧ p.type_name = obj)
        ∧ (return_valid_relations auth r obj owner = .ok none
          ↔ ¬ ∃ players, (owner, players) ∈ r.get_players_by_role
              ∧ ∃ p ∈ players, p.is_entity = true ∧ p.type_name = obj)) := by
  have hmap : ∀ (x : Except String Rec),
      (match x with
        | Except.error e => Except.error e
        | Except.ok reln => Except.ok (some reln)) = Except.map Option.some x := by
    intro x
    cases x <;> simp [Except.map]
  refine ⟨?_, ?_, ?_, ?_, ?_, ?_, ?_, ?_⟩
  · intro e h1 hfind
    rw [validate_get_relns.eq_def]
    simp only [h1, if_true, hfind]
  · intro e h1 h2 hfind
    rw [validate_get_relns.eq_def]
    simp only [h1, h2, Bool.false_eq_true, if_false, if_true, hfind]
  · intro e h1 h2 h3 hfind
    rw [validate_get_relns.eq_def]
    simp only [h1, h2, h3, Bool.false_eq_true, if_false, if_true, hfind]
  · intro e h1 h2 h3 h4 hfind
    rw [validate_get_relns.eq_def]
    simp only [h1, h2, h3, h4, Bool.false_eq_true, if_false, if_true, hfind]
  · intro h1 h2 h3 h4 hgm
    rw [validate_get_relns.eq_def]
    have hgm2 : (r.type_name == "granular-marking") = true := by
      rw [hgm]
      rfl
    simp only [h1, h2, h3, h4, Bool.false_eq_true, if_false, hgm2, if_true]
    exact hmap _
  · intro h1 h2 h3 h4 hh
    rw [validate_get_relns.eq_def]
    have hgm2 : (r.type_name == "granular-marking") = false := by
      rw [hh]
      rfl
    have hh2 : (r.type_name == "hashes") = true := by
      rw [hh]
      rfl
    simp only [h1, h2, h3, h4, Bool.false_eq_true, if_false, hgm2, hh2, if_true]
    exact hmap _
  · intro h1 h2 h3 h4 hgm hh
    rw [validate_get_relns.eq_def]
    have hgm2 : (r.type_name == "granular-marking") = false := by
      rw [beq_eq_false_iff_ne]
      exact hgm
    have hh2 : (r.type_name == "hashes") = false := by
      rw [beq_eq_false_iff_ne]
      exact hh
    simp only [h1, h2, h3, h4, hgm2, hh2, Bool.false_eq_true, if_false]
  · intro owner
    rw [return_valid_relations.eq_def]
    cases hC : (r.get_players_by_role.any (fun rp => rp.1 == owner && rp.2.any
        (fun p => p.is_entity && p.type_name == obj))) with
    | true =>
      simp only [hC, if_true]
      rw [hmap (get_relation_details auth r)]
      constructor
      · constructor
        · intro _
          exact (owner_match_iff _ _ _).mp hC
        · intro _
          rfl
      · constructor
        · intro habs
          exact absurd habs (map_some_ne_ok_none _)
        · intro habs
          exact absurd ((owner_match_iff _ _ _).mp hC) habs
    | false =>
      simp only [hC, Bool.false_eq_true, if_false]
      constructor
      · constructor
        · intro habs
          exact absurd habs.symm (map_some_ne_ok_none _)
        · intro habs
          rw [← owner_match_iff] at habs
          rw [hC] at habs
          exact absurd habs (by simp)
      · constructor
        · intro _
          intro habs
          rw [← owner_match_iff] at habs
          rw [hC] at habs
          exact absurd habs (by simp)
        · intro _
          trivial

theorem c4_validator_dispatch_witness :
    validate_get_relns c4_auth c4w_rel "marking-definition"
      = Except.map Option.some (get_relation_details c4_auth c4w_rel) :=
  (c4_validator_dispatch c4_auth c4w_rel "marking-definition").2.2.2.2.1
    (by decide) (by decide) (by decide) (by decide) rfl

/-- C4 counterexample: a relation named `file_header_hashes` resolves to the
hashes category in `get_relation_details`, yet `validate_get_relns` — which
checks only the literal name `hashes` — drops it (returns `None`) instead of
always keeping it. -/
theorem c4_cx_file_header_hashes_dropped :
    get_relation_details c4_auth c4_rel
      = .ok (.reln "file_header_hashes" "0x40" (some (get_hashes c4_rel)))
    ∧ validate_get_relns c4_auth c4_rel "x-sub" = .ok none := by
  constructor
  · rw [get_relation_details.eq_def]
    simp only [show c4_rel.type_name = "file_header_hashes" from rfl,
      show c4_rel.iid = "0x40" from rfl,
      show c4_auth.embedded_names.contains "file_header_hashes" = false from rfl,
      show (c4_auth.standard_names.contains "file_header_hashes"
        || (("file_header_hashes" : String) == "sighting")) = false from rfl,
      show c4_auth.key_value_names.contains "file_header_hashes" = false from rfl,
      show c4_auth.extension_names.contains "file_header_hashes" = false from rfl,
      show c4_auth.list_of_objects_names.contains "file_header_hashes" = false from rfl,
      show (("file_header_hashes" : String) == "granular-marking") = false from rfl,
      show ((("file_header_hashes" : String) == "hashes")
        || (("file_header_hashes" : String) == "file_header_hashes")) = true from rfl,
      Bool.false_eq_true, if_false, if_true]
  · rw [validate_get_relns.eq_def]
    simp only [show c4_rel.type_name = "file_header_hashes" from rfl,
      show c4_auth.embedded_names.contains "file_header_hashes" = false from rfl,
      show c4_auth.key_value_names.contains "file_header_hashes" = false from rfl,
      show c4_auth.extension_names.contains "file_header_hashes" = false from rfl,
      show c4_auth.list_of_objects_names.contains "file_header_hashes" = false from rfl,
      show (("file_header_hashes" : String) == "granular-marking") = false from rfl,
      show (("file_header_hashes" : String) == "hashes") = false from rfl,
      Bool.false_eq_true, if_false]

/-! ## C6: error escalation

First the counterexample: a relation whose type name is in the extension
membership set but has no extension detail row.  The comparison against the
unbound `reln_object` raises a `NameError` that escapes `convert_ans_to_res`. -/

theorem c6_eval_players : ext_players_loop c6_auth none [Thing.entity "anything" "0x61" [] []]
    = .error "NameError: reln_object" := by
  rw [ext_players_loop.eq_def]
  simp only [Thing.is_entity, if_true]

theorem c6_eval_roles : ext_roles_loop c6_auth none
    [("some-role", [Thing.entity "anything" "0x61" [] []])]
    = .error "NameError: reln_object" := by
  rw [ext_roles_loop.eq_def]
  simp only [c6_eval_players]

theorem c6_eval_ger : get_extension_relations c6_auth c6_ext_rel
    = .error "NameError: reln_object" := by
  rw [get_extension_relations.eq_def]
  have hlm : (last_match c6_auth.extension
      (fun e => e.relation == c6_ext_rel.type_name)).map (fun e => e.object) = none := rfl
  rw [hlm]
  exact c6_eval_roles

theorem c6_eval_grd : get_relation_details c6_auth c6_ext_rel
    = .error "NameError: reln_object" := by
  rw [get_relation_details.eq_def]
  have hc1 : c6_auth.embedded_names.contains c6_ext_rel.type_name = false := rfl
  have hc2 : (c6_auth.standard_names.contains c6_ext_rel.type_name
      || (c6_ext_rel.type_name == "sighting")) = false := rfl
  have hc3 : c6_auth.key_value_names.contains c6_ext_rel.type_name = false := rfl
  have hc4 : c6_auth.extension_names.contains c6_ext_rel.type_name = true := rfl
  simp only [hc1, hc2, hc3, hc4, Bool.false_eq_true, if_false, if_true, c6_eval_ger]

theorem c6_eval_relns : process_relns c6_auth [c6_ext_rel]
    = .error "NameError: reln_object" := by
  rw [process_relns.eq_2]
  rw [c6_eval_grd]

theorem c6_eval_bindings : ans_bindings_loop c6_auth [("a", c6_ent)]
    = .error "NameError: reln_object" := by
  rw [ans_bindings_loop.eq_2]
  simp only [show c6_ent.is_entity = true from rfl, if_true,
    show c6_ent.get_relations = [c6_ext_rel] from rfl, c6_eval_relns]

/-- C6 counterexample: decoding an answer binding a plain entity escalates an
uncaught `NameError` to the caller when one of the entity's relations has a
type name in the extension membership set with no extension detail row. -/
theorem c6_cx_name_error_escapes :
    is_ok (convert_ans_to_res c6_auth c6_answers) = false := by
  rw [show c6_answers = [[("a", c6_ent)]] from rfl]
  rw [convert_ans_to_res.eq_2]
  rw [c6_eval_bindings]
  rfl

/-! Totality under a consistent authorization table. -/

theorem size_get_relations_le (p : Thing) : sizeOf p.get_relations ≤ sizeOf p := by
  cases p <;> simp [Thing.get_relations] <;> omega

theorem size_players_by_role_le (r : Thing) : sizeOf r.get_players_by_role ≤ sizeOf r := by
  cases r <;> simp [Thing.get_players_by_role] <;> omega

theorem size_chain (r : Thing) (role : String) (players : List Thing) (p rel : Thing)
    (hm : (role, players) ∈ r.get_players_by_role) (hp : p ∈ players)
    (hrel : rel ∈ p.get_relations) : sizeOf rel < sizeOf r := by
  have h1 : sizeOf rel < sizeOf p.get_relations := List.sizeOf_lt_of_mem hrel
  have h2 := size_get_relations_le p
  have h3 : sizeOf p < sizeOf players := List.sizeOf_lt_of_mem hp
  have h4 : sizeOf players < sizeOf (role, players) := by
    simp only [Prod.mk.sizeOf_spec]
    omega
  have h5 : sizeOf (role, players) < sizeOf r.get_players_by_role :=
    List.sizeOf_lt_of_mem hm
  have h6 := size_players_by_role_le r
  omega

theorem glo_ok (auth : Auth) (r : Thing)
    (hc : auth.list_of_objects.all (fun lot => auth.sub_objects.contains lot.object) = true) :
    is_ok (get_list_of_objects auth r) = true := by
  unfold get_list_of_objects
  have h2 : (auth.list_of_objects.filter (fun lot => r.type_name == lot.typeql)).all
      (fun lot => auth.sub_objects.contains lot.object) = true := by
    rw [List.all_eq_true] at hc ⊢
    intro x hx
    exact hc x (List.mem_filter.mp hx).1
  rw [if_pos h2]
  rfl

theorem ext_validate_loop_ok_of (auth : Auth) (obj : String) :
    ∀ rels : List Thing, (∀ rel ∈ rels, is_ok (validate_get_relns auth rel obj) = true) →
      is_ok (ext_validate_loop auth obj rels) = true
  | [], _ => by
    rw [ext_validate_loop.eq_1]
    rfl
  | rel :: rest, h => by
    rw [ext_validate_loop.eq_def]
    obtain ⟨o, ho⟩ := (is_ok_iff _).mp (h rel (List.mem_cons_self _ _))
    have hrest := ext_validate_loop_ok_of auth obj rest
      (fun x hx => h x (List.mem_cons_of_mem _ hx))
    obtain ⟨out, hout⟩ := (is_ok_iff _).mp hrest
    cases o with
    | none =>
      simp only [ho]
      exact hrest
    | some r0 =>
      simp only [ho, hout]
      rfl

theorem ext_players_loop_ok_of (auth : Auth) (obj : String) :
    ∀ ps : List Thing, (∀ p ∈ ps, is_ok (ext_validate_loop auth obj p.get_relations) = true) →
      is_ok (ext_players_loop auth (some obj) ps) = true
  | [], _ => by
    rw [ext_players_loop.eq_1]
    rfl
  | p :: rest, h => by
    rw [ext_players_loop.eq_def]
    have hrest := ext_players_loop_ok_of auth obj rest
      (fun x hx => h x (List.mem_cons_of_mem _ hx))
    obtain ⟨plays, hplays⟩ := (is_ok_iff _).mp hrest
    cases hent : p.is_entity with
    | true =>
      simp only [hent, if_true]
      cases hty : (p.type_name == obj) with
      | true =>
        obtain ⟨relns, hrelns⟩ := (is_ok_iff _).mp (h p (List.mem_cons_self _ _))
        simp only [hty, if_true, hrelns, hplays]
        rfl
      | false =>
        simp only [hty, Bool.false_eq_true, if_false, hplays]
        rfl
    | false =>
      simp only [hent, Bool.false_eq_true, if_false]
      cases hattr : p.is_attribute with
      | true =>
        simp only [hattr, if_true, hplays]
        rfl
      | false =>
        simp only [hattr, Bool.false_eq_true, if_false]
        exact hrest

theorem ext_roles_loop_ok_of (auth : Auth) (obj : String) :
    ∀ rm : List (String × List Thing),
      (∀ role players, (role, players) ∈ rm →
        ∀ p ∈ players, is_ok (ext_validate_loop auth obj p.get_relations) = true) →
      is_ok (ext_roles_loop auth (some obj) rm) = true
  | [], _ => by
    rw [ext_roles_loop.eq_1]
    rfl
  | (role0, players0) :: rest, h => by
    rw [ext_roles_loop.eq_def]
    have h0 := ext_players_loop_ok_of auth obj players0
      (h role0 players0 (List.mem_cons_self _ _))
    obtain ⟨plays, hplays⟩ := (is_ok_iff _).mp h0
    have hrest := ext_roles_loop_ok_of auth obj rest
      (fun role players hm => h role players (List.mem_cons_of_mem _ hm))
    obtain ⟨roles, hroles⟩ := (is_ok_iff _).mp hrest
    simp only [hplays, hroles]
    rfl

/-- Under a consistent table no call in the dispatch group raises. -/
theorem decode_ok_all (auth : Auth) (hA : auth_consistent auth = true) :
    ∀ n : Nat, ∀ r : Thing, sizeOf r ≤ n →
      is_ok (get_relation_details auth r) = true
      ∧ (auth.extension_names.contains r.type_name = true →
          is_ok (get_extension_relations auth r) = true)
      ∧ (∀ obj owner, is_ok (return_valid_relations auth r obj owner) = true)
      ∧ (∀ obj, is_ok (validate_get_relns auth r obj) = true) := by
  intro n
  induction n using Nat.strong_induction_on with
  | _ n ih =>
    intro r hr
    have hA2 := hA
    unfold auth_consistent at hA2
    rw [Bool.and_eq_true, Bool.and_eq_true, Bool.and_eq_true, Bool.and_eq_true] at hA2
    obtain ⟨⟨⟨⟨hAemb, hAkv⟩, hAext⟩, hAloo⟩, hAsub⟩ := hA2
    have hGER : auth.extension_names.contains r.type_name = true →
        is_ok (get_extension_relations auth r) = true := by
      intro hext
      have hsome : (last_match auth.extension
          (fun e => e.relation == r.type_name)).isSome = true := by
        rw [List.all_eq_true] at hAext
        exact hAext _ (by simpa using hext)
      obtain ⟨e, he⟩ := Option.isSome_iff_exists.mp hsome
      rw [get_extension_relations.eq_def]
      rw [he]
      simp only [Option.map_some']
      apply ext_roles_loop_ok_of
      intro role players hm p hp
      apply ext_validate_loop_ok_of
      intro rel hrel
      have hlt : sizeOf rel < sizeOf r := size_chain r role players p rel hm hp hrel
      exact (ih (sizeOf rel) (lt_of_lt_of_le hlt hr) rel (le_refl _)).2.2.2 e.object
    have hGRD : is_ok (get_relation_details auth r) = true := by
      rw [get_relation_details.eq_def]
      cases h1 : auth.embedded_names.contains r.type_name with
      | true =>
        simp only [h1, if_true]
        rfl
      | false =>
        simp only [h1, Bool.false_eq_true, if_false]
        cases h2 : (auth.standard_names.contains r.type_name || (r.type_name == "sighting")) with
        | true =>
          simp only [h2, if_true]
          rfl
        | false =>
          simp only [h2, Bool.false_eq_true, if_false]
          cases h3 : auth.key_value_names.contains r.type_name with
          | true =>
            simp only [h3, if_true]
            rfl
          | false =>
            simp only [h3, Bool.false_eq_true, if_false]
            cases h4 : auth.extension_names.contains r.type_name with
            | true =>
              simp only [h4, if_true]
              obtain ⟨roles, hroles⟩ := (is_ok_iff _).mp (hGER h4)
              simp only [hroles]
              rfl
            | false =>
              simp only [h4, Bool.false_eq_true, if_false]
              cases h5 : auth.list_of_objects_names.contains r.type_name with
              | true =>
                simp only [h5, if_true]
                obtain ⟨roles, hroles⟩ := (is_ok_iff _).mp (glo_ok auth r hAsub)
                simp only [hroles]
                rfl
              | false =>
                simp only [h5, Bool.false_eq_true, if_false]
                cases h6 : (r.type_name == "granular-marking") with
                | true =>
                  simp only [h6, if_true]
                  rfl
                | false =>
                  simp only [h6, Bool.false_eq_true, if_false]
                  cases h7 : ((r.type_name == "hashes")
                      || (r.type_name == "file_header_hashes")) with
                  | true =>
                    simp only [h7, if_true]
                    rfl
                  | false =>
                    simp only [h7, Bool.false_eq_true, if_false]
                    rfl
    have hRVR : ∀ obj owner, is_ok (return_valid_relations auth r obj owner) = true := by
      intro obj owner
      rw [return_valid_relations.eq_def]
      split
      · obtain ⟨v, hv⟩ := (is_ok_iff _).mp hGRD
        simp only [hv]
        rfl
      · rfl
    have hVGR : ∀ obj, is_ok (validate_get_relns auth r obj) = true := by
      intro obj
      rw [validate_get_relns.eq_def]
      cases h1 : auth.embedded_names.contains r.type_name with
      | true =>
        simp only [h1, if_true]
        have hsome : (last_match auth.embedded
            (fun e => e.typeql == r.type_name)).isSome = true := by
          rw [List.all_eq_true] at hAemb
          exact hAemb _ (by simpa using h1)
        obtain ⟨e, he⟩ := Option.isSome_iff_exists.mp hsome
        simp only [he]
        exact hRVR obj e.owner
      | false =>
        simp only [h1, Bool.false_eq_true, if_false]
        cases h2 : auth.key_value_names.contains r.type_name with
        | true =>
          simp only [h2, if_true]
          have hsome : (last_match auth.key_value
              (fun e => e.typeql == r.type_name)).isSome = true := by
            rw [List.all_eq_true] at hAkv
            exact hAkv _ (by simpa using h2)
          obtain ⟨e, he⟩ := Option.isSome_iff_exists.mp hsome
          simp only [he]
          exact hRVR obj e.owner
        | false =>
          simp only [h2, Bool.false_eq_true, if_false]
          cases h3 : auth.extension_names.contains r.type_name with
          | true =>
            simp only [h3, if_true]
            have hsome : (last_match auth.extension
                (fun e => e.relation == r.type_name)).isSome = true := by
              rw [List.all_eq_true] at hAext
              exact hAext _ (by simpa using h3)
            obtain ⟨e, he⟩ := Option.isSome_iff_exists.mp hsome
            simp only [he]
            exact hRVR obj e.owner
          | false =>
            simp only [h3, Bool.false_eq_true, if_false]
            cases h4 : auth.list_of_objects_names.contains r.type_name with
            | true =>
              simp only [h4, if_true]
              have hsome : (last_match auth.list_of_objects
                  (fun e => e.typeql == r.type_name)).isSome = true := by
                rw [List.all_eq_true] at hAloo
                exact hAloo _ (by simpa using h4)
              obtain ⟨e, he⟩ := Option.isSome_iff_exists.mp hsome
              simp only [he]
              exact hRVR obj e.owner
            | false =>
              simp only [h4, Bool.false_eq_true, if_false]
              cases h5 : (r.type_name == "granular-marking") with
              | true =>
                simp only [h5, if_true]
                obtain ⟨v, hv⟩ := (is_ok_iff _).mp hGRD
                simp only [hv]
                rfl
              | false =>
                simp only [h5, Bool.false_eq_true, if_false]
                cases h6 : (r.type_name == "hashes") with
                | true =>
                  simp only [h6, if_true]
                  obtain ⟨v, hv⟩ := (is_ok_iff _).mp hGRD
                  simp only [hv]
                  rfl
                | false =>
                  simp only [h6, Bool.false_eq_true, if_false]
                  rfl
    exact ⟨hGRD, hGER, hRVR, hVGR⟩

theorem process_relns_ok (auth : Auth) (hA : auth_consistent auth = true) :
    ∀ rels : List Thing, is_ok (process_relns auth rels) = true
  | [] => by
    rw [process_relns.eq_1]
    rfl
  | r :: rest => by
    rw [process_relns.eq_2]
    obtain ⟨v, hv⟩ := (is_ok_iff _).mp
      ((decode_ok_all auth hA (sizeOf r) r (le_refl _)).1)
    obtain ⟨vs, hvs⟩ := (is_ok_iff _).mp (process_relns_ok auth hA rest)
    simp only [hv, hvs]
    rfl

theorem ans_bindings_loop_ok (auth : Auth) (hA : auth_consistent auth = true) :
    ∀ l : List (String × Thing), is_ok (ans_bindings_loop auth l) = true
  | [] => by
    rw [ans_bindings_loop.eq_1]
    rfl
  | (key, thing) :: rest => by
    rw [ans_bindings_loop.eq_2]
    obtain ⟨relns, hrelns⟩ := (is_ok_iff _).mp (process_relns_ok auth hA thing.get_relations)
    have h2 := ans_bindings_loop_ok auth hA rest
    obtain ⟨items, hitems⟩ := (is_ok_iff _).mp h2
    cases he : thing.is_entity with
    | true =>
      simp only [he, if_true, hrelns, hitems]
      rfl
    | false =>
      simp only [he, Bool.false_eq_true, if_false]
      cases hrel : thing.is_relation with
      | true =>
        simp only [hrel, if_true, hrelns, hitems]
        rfl
      | false =>
        simp only [hrel, Bool.false_eq_true, if_false]
        exact h2

theorem convert_ans_to_res_ok (auth : Auth) (hA : auth_consistent auth = true) :
    ∀ answers : List (List (String × Thing)), is_ok (convert_ans_to_res auth answers) = true
  | [] => by
    rw [convert_ans_to_res.eq_1]
    rfl
  | ans :: rest => by
    rw [convert_ans_to_res.eq_2]
    obtain ⟨items, hitems⟩ := (is_ok_iff _).mp (ans_bindings_loop_ok auth hA ans)
    obtain ⟨more, hmore⟩ := (is_ok_iff _).mp (convert_ans_to_res_ok auth hA rest)
    simp only [hitems, hmore]
    rfl

/-- C6 (amended): under a consistent authorization table — every name in an
owner-filtered membership set has a detail row and every list-of-objects row
names a known sub-object key — decoding never escalates an error: the
traversal of any answer list completes and returns a result.  (Without that
consistency an unbound-local `NameError` escapes; see the counterexample.) -/
theorem c6_no_exception_when_consistent (auth : Auth) (hA : auth_consistent auth = true)
    (answers : List (List (String × Thing))) :
    is_ok (convert_ans_to_res auth answers) = true :=
  convert_ans_to_res_ok auth hA answers

theorem c6_no_exception_when_consistent_witness :
    auth_consistent c6w_auth = true
    ∧ is_ok (convert_ans_to_res c6w_auth c6w_answers) = true :=
  ⟨by decide, c6_no_exception_when_consistent c6w_auth (by decide) c6w_answers⟩

end StixDecode
